import Mathlib

/-!
Verification development for the lgrep result-streaming execution engine.

The Go source is shallowly embedded: pure functions become Lean functions,
the producer goroutines (`executeScroll`, `executeSearcher`) become explicit
state-passing recursions over the sequence of server page responses, and the
nondeterministic `select` between the quit channel and the results channel is
resolved by an explicit oracle (`quit : Nat → Bool`) indexed by the global
hit step, so every schedule of the race is a concrete input.  Channels are
modelled as the lists of messages sent on them, in order.  Go `error` values
are modelled as `Option String` / `Except String`, Go `int` as `Int`.
-/

namespace LGrep

/-! ## JSON values: model of the Go `encoding/json` data that the program
decodes into `map[string]interface{}`.  `jsonParse` models `json.Unmarshal`
restricted to the JSON subset the claims exercise: null, booleans, integer
numerals, strings without escape sequences, arrays and objects (ASCII). -/

/-- JSON value, the model of Go `interface{}` holding decoded JSON. -/
inductive JVal where
  | null : JVal
  | boolean (b : Bool) : JVal
  | num (n : Int) : JVal
  | str (s : String) : JVal
  | arr (xs : List JVal) : JVal
  | obj (fields : List (String × JVal)) : JVal

/-- Opening brace character, written by code point to keep literals plain. -/
def obrace : Char := Char.ofNat 123

/-- Closing brace character. -/
def cbrace : Char := Char.ofNat 125

/-- Skip JSON insignificant whitespace. -/
def skipWs : List Char → List Char
  | c :: cs =>
    if c = ' ' ∨ c = '\t' ∨ c = '\n' ∨ c = '\r' then skipWs cs else c :: cs
  | [] => []

/-- Parse the body of a JSON string literal (opening quote already
consumed); escape sequences are outside the modelled subset. -/
def parseStr : List Char → Option (String × List Char)
  | [] => none
  | c :: cs =>
    if c = '"' then some ("", cs)
    else if c = '\\' then none
    else (parseStr cs).map (fun p => (String.singleton c ++ p.1, p.2))

/-- Accumulate a run of decimal digits. -/
def parseDigitsAux : List Char → Nat → Nat × List Char
  | c :: cs, acc =>
    if c.isDigit then parseDigitsAux cs (acc * 10 + (c.toNat - '0'.toNat))
    else (acc, c :: cs)
  | [], acc => (acc, [])

/-- Parse at least one decimal digit. -/
def parseDigits : List Char → Option (Nat × List Char)
  | c :: cs => if c.isDigit then some (parseDigitsAux (c :: cs) 0) else none
  | [] => none

/-- Parse an optionally signed integer numeral. -/
def parseNum : List Char → Option (Int × List Char)
  | c :: cs =>
    if c = '-' then (parseDigits cs).map (fun p => (-(p.1 : Int), p.2))
    else (parseDigits (c :: cs)).map (fun p => ((p.1 : Int), p.2))
  | [] => none

/-- Parser mode: a top-level value, the element list of an array, or the
member list of an object. -/
inductive PMode where
  | top : PMode
  | elems : PMode
  | members : PMode

/-- Fuel-indexed JSON parser core (structural recursion on the fuel). -/
def parseF : Nat → PMode → List Char → Option (JVal × List Char)
  | 0, _, _ => none
  | f + 1, PMode.top, cs =>
    match skipWs cs with
    | 'n' :: 'u' :: 'l' :: 'l' :: rest => some (JVal.null, rest)
    | 't' :: 'r' :: 'u' :: 'e' :: rest => some (JVal.boolean true, rest)
    | 'f' :: 'a' :: 'l' :: 's' :: 'e' :: rest => some (JVal.boolean false, rest)
    | '"' :: rest => (parseStr rest).map (fun p => (JVal.str p.1, p.2))
    | '[' :: rest =>
      (match skipWs rest with
       | ']' :: r2 => some (JVal.arr [], r2)
       | r2 => parseF f PMode.elems r2)
    | c :: rest =>
      if c = obrace then
        (match skipWs rest with
         | c2 :: r2 =>
           if c2 = cbrace then some (JVal.obj [], r2)
           else parseF f PMode.members (c2 :: r2)
         | [] => none)
      else if c = '-' ∨ c.isDigit then
        (parseNum (c :: rest)).map (fun p => (JVal.num p.1, p.2))
      else none
    | [] => none
  | f + 1, PMode.elems, cs =>
    match parseF f PMode.top cs with
    | none => none
    | some (v, rest) =>
      match skipWs rest with
      | ',' :: r2 =>
        (match parseF f PMode.elems r2 with
         | some (JVal.arr xs, r3) => some (JVal.arr (v :: xs), r3)
         | _ => none)
      | ']' :: r2 => some (JVal.arr [v], r2)
      | _ => none
  | f + 1, PMode.members, cs =>
    match skipWs cs with
    | '"' :: rest =>
      (match parseStr rest with
       | none => none
       | some (k, r1) =>
         match skipWs r1 with
         | ':' :: r2 =>
           (match parseF f PMode.top r2 with
            | none => none
            | some (v, r3) =>
              match skipWs r3 with
              | ',' :: r4 =>
                (match parseF f PMode.members r4 with
                 | some (JVal.obj fs, r5) => some (JVal.obj ((k, v) :: fs), r5)
                 | _ => none)
              | c4 :: r4 =>
                if c4 = cbrace then some (JVal.obj [(k, v)], r4) else none
              | [] => none)
         | _ => none)
    | _ => none

/-- Model of `json.Unmarshal` on the subset above: parse one value and
require only whitespace to remain. -/
def jsonParse (s : String) : Option JVal :=
  match parseF (s.length + 1) PMode.top s.data with
  | some (v, rest) => if skipWs rest = [] then some v else none
  | none => none

/-! ## Result representation (src/result.go).

Go `Result` is an interface with variants `FieldResult`, `SourceResult` (and
a compat `HitResult` envelope variant that `extractResult` never produces,
omitted here); a Go interface value may also be nil, so a channel element is
`Option LResult`. -/

/-- The result variants produced by `extractResult`. -/
inductive LResult where
  | fieldResult (fields : List (String × JVal)) : LResult
  | sourceResult (raw : String) : LResult

/-- SourceResult is returned when an entire document is requested; it stores
the raw, already-serialized JSON bytes (Go `type SourceResult
json.RawMessage`). -/
structure SourceResult where
  raw : String

/-- Map transforms SourceResult into a map from its native format: it is the
lazy decode `json.Unmarshal(sr, &data)` of the stored bytes into
`map[string]interface{}` (which requires a top-level JSON object). -/
def SourceResult.Map (sr : SourceResult) : Except String (List (String × JVal)) :=
  match jsonParse sr.raw with
  | some (JVal.obj fields) => Except.ok fields
  | some _ => Except.error "json: cannot unmarshal value into map"
  | none => Except.error "invalid character in json input"

/-- JSON encodes the result into a JSON document - in this case a no-op:
`func (sr SourceResult) JSON() ([]byte, error) \x7b return sr, nil \x7d`. -/
def SourceResult.JSON (sr : SourceResult) : Except String String :=
  Except.ok sr.raw

/-! ## Search specification (src/search.go `SearchOptions`). -/

/-- SearchOptions is used to apply provided options to a search that is to
be performed.  Field `Typ` renders Go's `Type` field (a reserved word in
Lean). -/
structure SearchOptions where
  Size : Int := 0
  Index : String := ""
  Indices : List String := []
  SortTime : Option Bool := none
  QueryDebug : Bool := false
  Fields : List String := []
  Typ : String := ""
  Types : List String := []

/-! ## URL building (src/search.go `buildURL`).

The source delegates substitution to `uritemplates.Expand`; simple RFC 6570
expansion of a single variable inserts the value with every character
outside the unreserved set percent-encoded.  `escape` models that expansion
for ASCII values (the only values the program uses). -/

/-- Upper-case hexadecimal digit for `n < 16`. -/
def hexDigit (n : Nat) : Char :=
  if n < 10 then Char.ofNat ('0'.toNat + n) else Char.ofNat ('A'.toNat + n - 10)

/-- RFC 6570 unreserved characters are left intact by simple expansion. -/
def unreservedChar (c : Char) : Bool :=
  c.isAlphanum || c = '-' || c = '.' || c = '_' || c = '~'

/-- Percent-encode a single ASCII character unless it is unreserved. -/
def escapeChar (c : Char) : String :=
  if unreservedChar c then String.singleton c
  else String.singleton '%' ++ String.singleton (hexDigit (c.toNat / 16 % 16))
       ++ String.singleton (hexDigit (c.toNat % 16))

/-- Model of `uritemplates.Expand` applied to one simple variable value. -/
def escape (s : String) : String :=
  String.join (s.data.map escapeChar)

/-- The index list `buildURL` assembles: the singular `Index` (when set)
followed by the plural `Indices`. -/
def specIndices (s : SearchOptions) : List String :=
  (if s.Index ≠ "" then [s.Index] else []) ++ s.Indices

/-- The type list `buildURL` assembles: the singular `Typ` (when set)
followed by the plural `Types`. -/
def specTypes (s : SearchOptions) : List String :=
  (if s.Typ ≠ "" then [s.Typ] else []) ++ s.Types

/-- buildURL generates the url parts that are appropriate to the endpoint
and specification (src/search.go lines 111-144).  The four template cases of
the source are reproduced; `uritemplates.Expand` is modelled by `escape` and
never fails on these fixed templates, so the Go error result is always nil
and the (always empty) query params are dropped. -/
def buildURL (s : SearchOptions) (endpoint : String) : Except String String :=
  let indices := specIndices s
  let types := specTypes s
  let path :=
    if indices.length > 0 ∧ types.length > 0 then
      "/" ++ escape (String.intercalate "," indices) ++ "/"
        ++ escape (String.intercalate "," types) ++ "/"
    else if indices.length > 0 then
      "/" ++ escape (String.intercalate "," indices) ++ "/"
    else if types.length > 0 then
      "/_all/" ++ escape (String.intercalate "," types) ++ "/"
    else
      "/"
  Except.ok (path ++ endpoint)

/-! ## Hits and result extraction (src/unnamed/part_008 `extractResult`). -/

/-- Model of `*elastic.SearchHit`: the optional field-subset mapping
(`hit.Fields`, nil map modelled as `[]`) and the optional full source bytes
(`hit.Source`, a nil pointer modelled as `none`; a nil hit pointer behaves
identically to a nil source in `extractResult` and is folded into it). -/
structure SearchHit where
  fields : List (String × JVal) := []
  source : Option String := none

/-- Model of a Go error message. -/
abbrev Err := String

/-- extractResult converts one hit into a Result: a `FieldResult` when the
spec selected fields and the hit carries fields, a `SourceResult` when the
source body is present, and otherwise the error `nil document returned` with
a nil (`none`) Result — mirroring the Go pair return `(result, err)`. -/
def extractResult (hit : SearchHit) (spec : SearchOptions) :
    Option LResult × Option Err :=
  if spec.Fields.length ≠ 0 ∧ hit.fields.length ≠ 0 then
    (some (LResult.fieldResult hit.fields), none)
  else
    match hit.source with
    | none => (none, some "nil document returned")
    | some src => (some (LResult.sourceResult src), none)

/-! ## Stream creation (src/execute.go `execute`, lines 296-344).

`execute` builds the stream channels, dispatches on the requested size, and
either returns a configuration error synchronously or spawns exactly one
producer goroutine.  The model records the channel capacities and which
producer (if any) was spawned; a configuration error is the `Except.error`
branch, in which no `StreamInit` exists at all — no stream object, no
spawned producer, and nothing on the (never-returned) error channel. -/

/-- MaxSearchSize is the maximum search size that is able to be performed
before the search will necessitate a scroll. -/
def MaxSearchSize : Int := 10000

/-- Fixed per-page chunk size of the scroll (`scrollChunk = 100`). -/
def scrollChunk : Nat := 100

/-- Which producer goroutine `execute` spawned. -/
inductive Producer where
  | scrollProducer (chunk : Nat) : Producer
  | searcherProducer : Producer

/-- Observable result of a successful `execute`: the created channel
capacities and the single spawned producer task. -/
structure StreamInit where
  resultsCap : Nat
  errorsCap : Nat
  quitCap : Nat
  producer : Producer

/-- Model of `query.Source()`: either an error, a JSON object map (the
`QueryMap` case), or some other query shape. -/
inductive QuerySource where
  | mapSrc (m : List (String × JVal)) : QuerySource
  | otherSrc : QuerySource

/-- execute runs the search and accommodates any necessary work to ensure
the search is executed properly (src/execute.go lines 296-344).  The stream
is created with `make(chan Result, 93)` and `make(chan error, 1)` and a
quit channel of capacity 1; for `Size > MaxSearchSize` the index guard
`spec.Index == "" || (spec.Index == "" && len(spec.Indices) == 0)` rejects
the request synchronously, otherwise the scroll producer is spawned with
`scroll.Size(scrollChunk)`; small requests spawn the single-page searcher. -/
def execute (spec : SearchOptions) (querySource : Except Err QuerySource) :
    Except Err StreamInit :=
  if spec.Size > MaxSearchSize then
    if spec.Index = "" ∨ (spec.Index = "" ∧ spec.Indices.length = 0) then
      Except.error "An index pattern must be given for large requests"
    else
      match querySource with
      | Except.error e => Except.error e
      | Except.ok _ =>
        Except.ok { resultsCap := 93, errorsCap := 1, quitCap := 1,
                    producer := Producer.scrollProducer scrollChunk }
  else
    Except.ok { resultsCap := 93, errorsCap := 1, quitCap := 1,
                producer := Producer.searcherProducer }

/-! ## Stream controller `Quit` (src/execute.go lines 222-240).

Observable state of the controller: the `stopped` flag, the number of quit
signals ever sent on the capacity-1 quit channel, and the number of
bounded waits performed.  `Quit` takes the lock, returns immediately when
`stopped` is already set, and otherwise sends exactly one quit signal,
performs one bounded (1s-timeout) wait, and sets `stopped`. -/

/-- Observable stream-controller state touched by `Quit`. -/
structure StreamControl where
  stopped : Bool
  signalsSent : Nat
  waitsPerformed : Nat

/-- Quit instructs the stream to close down cleanly early, blocking until
that happens; this function is safe to call several times. -/
def StreamControl.Quit (c : StreamControl) : StreamControl :=
  if c.stopped then c
  else
    { stopped := true
      signalsSent := c.signalsSent + 1
      waitsPerformed := c.waitsPerformed + 1 }

/-! ## The scroll producer (src/execute.go `executeScroll`, lines 346-440).

The goroutine is embedded as a recursion over the list of server responses
to successive `scroll.Do()` calls.  A response is a page (scroll id plus
hits), the end-of-stream sentinel `elastic.EOS`, or a transport error; an
exhausted response list behaves like EOS.  The `select` between the quit
channel and a send on the results channel is resolved by the oracle
`quit : Nat → Bool` at the global hit step: `true` means the quit branch of
the select fires there (the converted result is dropped and the loop
breaks), `false` means the publish branch fires. -/

/-- One page returned by `scroll.Do()`. -/
structure Page where
  scrollId : String := ""
  hits : List SearchHit := []

/-- Outcome of one `scroll.Do()` round trip. -/
inductive PageResp where
  | okPage (p : Page) : PageResp
  | eos : PageResp
  | errResp (e : Err) : PageResp

/-- Producer-side observable state: messages sent on the results and errors
channels in order, the scroll ids sent to the discard (retirement) channel,
the running `resultCount`, the currently held scroll id, how many pages were
fetched, the global hit step, and the step at which the quit branch of the
select fired (if it did). -/
structure ScrollState where
  published : List (Option LResult) := []
  errs : List Err := []
  discards : List String := []
  count : Int := 0
  nextId : String := ""
  pagesFetched : Nat := 0
  step : Nat := 0
  quitObserved : Option Nat := none

/-- How the per-page hit loop ended: fell through to the next page, broke
out on the quit select branch, or broke out on `resultCount == spec.Size`. -/
inductive HitExit where
  | more : HitExit
  | quitStop : HitExit
  | countStop : HitExit

/-- The inner `for _, hit := range results.Hits.Hits` loop of
`executeScroll` (lines 418-434): convert the hit, publish any conversion
error, then select quit (drop and stop) versus publish (append to the
results channel and increment `resultCount`), and stop after publishing
when the count reaches `spec.Size`. -/
def runHits (spec : SearchOptions) (quit : Nat → Bool) :
    List SearchHit → ScrollState → ScrollState × HitExit
  | [], st => (st, HitExit.more)
  | hit :: rest, st =>
    let ex := extractResult hit spec
    let st1 :=
      match ex.2 with
      | some e => { st with errs := st.errs ++ [e] }
      | none => st
    if quit st1.step then
      ({ st1 with quitObserved := some st1.step }, HitExit.quitStop)
    else
      let st2 := { st1 with
        published := st1.published ++ [ex.1]
        count := st1.count + 1
        step := st1.step + 1 }
      if st2.count = spec.Size then (st2, HitExit.countStop)
      else runHits spec quit rest st2

/-- The `if nextScrollID != "" \x7b discardID <- nextScrollID \x7d` epilogue
after the scroll loop exits (lines 436-438). -/
def finishScroll (st : ScrollState) : ScrollState :=
  if st.nextId ≠ "" then { st with discards := st.discards ++ [st.nextId] }
  else st

/-- Bookkeeping done between a successful `scroll.Do()` and the hit loop
(lines 410-416): count the fetched page and, when the returned scroll id is
non-empty and differs from the held one, send the superseded id to the
discard channel and hold the new id. -/
def pageEntry (p : Page) (st : ScrollState) : ScrollState :=
  let st1 := { st with pagesFetched := st.pagesFetched + 1 }
  if p.scrollId ≠ "" ∧ p.scrollId ≠ st1.nextId then
    { st1 with
      discards := st1.discards ++ [st1.nextId]
      nextId := p.scrollId }
  else st1

/-- The `scrollLoop` of `executeScroll` (lines 389-435): re-arm the scroll
id and stop once `resultCount >= spec.Size` at the top (only after a first
page produced an id), fetch the next page, translate EOS and transport
errors, retire a superseded scroll id, and run the hit loop. -/
def runScroll (spec : SearchOptions) (quit : Nat → Bool) :
    List PageResp → ScrollState → ScrollState
  | [], st => finishScroll st
  | resp :: rest, st =>
    if st.nextId ≠ "" ∧ st.count ≥ spec.Size then finishScroll st
    else
      match resp with
      | PageResp.eos => finishScroll st
      | PageResp.errResp e =>
        finishScroll { st with errs := st.errs ++
          ["Server responded with error while scrolling: " ++ e] }
      | PageResp.okPage p =>
        match runHits spec quit p.hits (pageEntry p st) with
        | (st3, HitExit.more) => runScroll spec quit rest st3
        | (st3, _) => finishScroll st3

/-- Full run of the scroll producer from the initial state. -/
def executeScrollRun (spec : SearchOptions) (quit : Nat → Bool)
    (resps : List PageResp) : ScrollState :=
  runScroll spec quit resps {}

/-! ## The single-page producer (src/execute.go `executeSearcher`,
lines 442-469).  One `service.Do()` call; on error, publish it and return;
on success iterate the hits, checking the quit channel non-blockingly
before converting each hit, publishing any conversion error and then the
(possibly nil) converted result. -/

/-- Observable state of the single-page producer. -/
structure SearcherState where
  published : List (Option LResult) := []
  errs : List Err := []
  step : Nat := 0
  quitObserved : Option Nat := none

/-- Outcome of the single `service.Do()` call. -/
inductive DoResp where
  | okHits (hits : List SearchHit) : DoResp
  | errResp (e : Err) : DoResp

/-- The hit loop of `executeSearcher`: the select's quit branch (oracle
`true`) returns immediately; the default branch converts the hit, publishes
any conversion error on the errors channel, and always publishes the
converted result (nil on conversion failure) on the results channel. -/
def runSearcherHits (spec : SearchOptions) (quit : Nat → Bool) :
    List SearchHit → SearcherState → SearcherState
  | [], st => st
  | hit :: rest, st =>
    if quit st.step then { st with quitObserved := some st.step }
    else
      let ex := extractResult hit spec
      let st1 :=
        match ex.2 with
        | some e => { st with errs := st.errs ++ [e] }
        | none => st
      runSearcherHits spec quit rest
        { st1 with
          published := st1.published ++ [ex.1]
          step := st1.step + 1 }

/-- Full run of `executeSearcher` given the response of `service.Do()`. -/
def executeSearcherRun (spec : SearchOptions) (quit : Nat → Bool)
    (resp : DoResp) : SearcherState :=
  match resp with
  | DoResp.errResp e => { errs := [e] }
  | DoResp.okHits hits => runSearcherHits spec quit hits {}

/-! ## Stream consumption (src/execute.go `Each` lines 261-294 and `All`
lines 245-253).

The consumer loop is embedded over the trace of channel receive events the
`select` performs, each event carrying the received value and the channel's
`ok` flag (a closed channel yields the zero value with `ok = false`).  The
caller callbacks thread a state `σ`; `resultFn`/`errFn` return the updated
state and the Go error result.  `eachRun` returns `none` when the trace
ends without the loop having returned (the real loop would still be
blocked), and otherwise the final state, the propagated error, and whether
`Quit` was invoked. -/

/-- EOS is the sentinel value indicating that the end of stream has been
reached (`var EOS Result = nil`). -/
def EOS : Option LResult := none

/-- One channel receive event observed by `Each`'s select. -/
inductive ChanEvent where
  | errRecv (v : Option Err) (ok : Bool) : ChanEvent
  | resRecv (v : Option LResult) (ok : Bool) : ChanEvent

/-- Each executes a function with each result that is read from the channel
(src/execute.go lines 261-294), embedded over a receive-event trace. -/
def eachRun {σ : Type} (resultFn : Option LResult → σ → σ × Option Err)
    (errFn : Option Err → σ → σ × Option Err) :
    List ChanEvent → σ → Option (σ × Option Err × Bool)
  | [], _ => none
  | ChanEvent.errRecv v ok :: rest, s =>
    if v = none ∧ ok = false then eachRun resultFn errFn rest s
    else
      let r := errFn v s
      match r.2 with
      | none => eachRun resultFn errFn rest r.1
      | some e => some (r.1, some e, true)
  | ChanEvent.resRecv v ok :: rest, s =>
    if v.isNone ∧ ok = false then
      let r := resultFn EOS s
      some (r.1, r.2, false)
    else
      let r := resultFn v s
      match r.2 with
      | none => eachRun resultFn errFn rest r.1
      | some e => some (r.1, some e, false)

/-- The `resultFn` closure of `All`: append the received result (including
the EOS sentinel, since the closure does not distinguish it) and return
nil. -/
def allResultFn (r : Option LResult) (acc : List (Option LResult)) :
    List (Option LResult) × Option Err :=
  (acc ++ [r], none)

/-- The `errFn` closure of `All`: exit immediately, returning the error
unchanged. -/
def allErrFn (e : Option Err) (acc : List (Option LResult)) :
    List (Option LResult) × Option Err :=
  (acc, e)

/-- All reads the entire stream into memory (src/execute.go lines 245-253):
`Each` with the appending `resultFn` and the identity `errFn`. -/
def allRun (trace : List ChanEvent) :
    Option (List (Option LResult) × Option Err × Bool) :=
  eachRun allResultFn allErrFn trace []

/-- The receive-event trace of a stream that ends by normal closure of the
results channel: each genuine result is received with `ok = true`, then the
closed results channel yields `(nil, false)`. -/
def normalTrace (rs : List (Option LResult)) : List ChanEvent :=
  rs.map (fun r => ChanEvent.resRecv r true) ++ [ChanEvent.resRecv none false]

/-! ## Claim C3 -/

/-- C3: for every specification with requested size greater than the
single-request limit (10000) and no index or index-pattern set, `execute`
returns the configuration error synchronously.  In the model the
`Except.error` branch is produced before any producer is recorded as
spawned: no `StreamInit` (stream object) exists, and since only spawned
producers ever append to the error channel, the error is never placed on
it. -/
theorem c3_large_request_without_index_is_sync_config_error
    (spec : SearchOptions) (q : Except Err QuerySource)
    (hsize : spec.Size > MaxSearchSize) (hidx : spec.Index = "")
    (hidxs : spec.Indices = []) :
    execute spec q =
      Except.error "An index pattern must be given for large requests" := by
  simp [execute, hsize, hidx, hidxs]

/-- Witness for C3 at the spec of the end-to-end scenario, size 10001 and
no index. -/
theorem c3_witness :
    execute { Size := 10001 } (Except.ok QuerySource.otherSrc) =
      Except.error "An index pattern must be given for large requests" :=
  c3_large_request_without_index_is_sync_config_error
    { Size := 10001 } (Except.ok QuerySource.otherSrc) (by decide) rfl rfl

/-! ## Claim C10 -/

/-- C10: the index guard of `execute` tests only the singular `Index`
field; a specification with empty `Index` is rejected for large requests
even when the plural `Indices` list is non-empty, because the guard
`Index == "" || (Index == "" && len(Indices) == 0)` already holds whenever
`Index` is empty. -/
theorem c10_plural_indices_never_satisfy_index_guard
    (spec : SearchOptions) (q : Except Err QuerySource)
    (hsize : spec.Size > MaxSearchSize) (hidx : spec.Index = "")
    (hplural : spec.Indices ≠ []) :
    execute spec q =
      Except.error "An index pattern must be given for large requests" := by
  simp [execute, hsize, hidx]

/-- Witness for C10: a large request with a non-empty `Indices` list and an
empty `Index` is still rejected. -/
theorem c10_witness :
    execute { Size := 10001, Indices := ["logstash-2016.*"] }
        (Except.ok QuerySource.otherSrc) =
      Except.error "An index pattern must be given for large requests" :=
  c10_plural_indices_never_satisfy_index_guard
    { Size := 10001, Indices := ["logstash-2016.*"] }
    (Except.ok QuerySource.otherSrc) (by decide) rfl (by decide)

/-! ## Claim C5 -/

/-- C5: `Quit` is idempotent.  The first call sets the `stopped` flag (after
sending one cancellation signal and performing one bounded wait); a second
call in succession leaves the observable state exactly as after the first,
and any call on an already-stopped controller returns immediately, sending
no further signal and performing no further wait. -/
theorem c5_quit_idempotent (c : StreamControl) :
    (c.Quit).stopped = true ∧ c.Quit.Quit = c.Quit ∧
      (c.stopped = true → c.Quit = c) := by
  by_cases h : c.stopped = true
  · refine ⟨?_, ?_, fun _ => ?_⟩ <;> simp [StreamControl.Quit, h]
  · refine ⟨?_, ?_, fun hc => absurd hc h⟩ <;>
      simp [StreamControl.Quit, h]

/-- Witness for C5 at concrete controller states: a second call after a
completed first call is a no-op, and the first call stops the stream. -/
theorem c5_witness :
    StreamControl.Quit ⟨true, 1, 1⟩ = (⟨true, 1, 1⟩ : StreamControl) ∧
    (StreamControl.Quit ⟨false, 0, 0⟩).stopped = true :=
  ⟨(c5_quit_idempotent ⟨true, 1, 1⟩).2.2 rfl,
   (c5_quit_idempotent ⟨false, 0, 0⟩).1⟩

/-! ## Claim C7 (corrected) -/

/-- C7 counterexample: the claim says the results channel capacity equals
the per-page chunk size, but `execute` (src/execute.go line 300) creates
`make(chan Result, 93)` while `scrollChunk = 100`; at the concrete
specification of size 50 the created stream has results capacity 93, which
is not the chunk size. -/
theorem c7_counterexample :
    execute { Size := 50 } (Except.ok QuerySource.otherSrc) =
      Except.ok { resultsCap := 93, errorsCap := 1, quitCap := 1,
                  producer := Producer.searcherProducer } ∧
    (93 : Nat) ≠ scrollChunk := by
  exact ⟨rfl, by decide⟩

/-- C7 amended: every stream `execute` returns is created with a results
channel of fixed buffer capacity 93 (not the per-page chunk size 100) and
an errors channel of buffer capacity exactly 1. -/
theorem c7_stream_channel_capacities
    (spec : SearchOptions) (q : Except Err QuerySource) (st : StreamInit)
    (h : execute spec q = Except.ok st) :
    st.resultsCap = 93 ∧ st.errorsCap = 1 := by
  unfold execute at h
  split at h
  · split at h
    · simp at h
    · cases q with
      | error e => simp at h
      | ok s =>
        simp only [Except.ok.injEq] at h
        subst h
        exact ⟨rfl, rfl⟩
  · simp only [Except.ok.injEq] at h
    subst h
    exact ⟨rfl, rfl⟩

/-- Witness for C7's amended theorem at a small concrete specification. -/
theorem c7_witness :
    (⟨93, 1, 1, Producer.searcherProducer⟩ : StreamInit).resultsCap = 93 ∧
    (⟨93, 1, 1, Producer.searcherProducer⟩ : StreamInit).errorsCap = 1 :=
  c7_stream_channel_capacities { Size := 50 }
    (Except.ok QuerySource.otherSrc)
    ⟨93, 1, 1, Producer.searcherProducer⟩ rfl

/-! ## Claim C6 -/

/-- C6: `buildURL` produces exactly one of four path shapes for an
endpoint, determined by whether any index (singular `Index` or plural
`Indices`) and any type (singular `Typ` or plural `Types`) is set:
`/{index}/{type}/{endpoint}` with both, `/{index}/{endpoint}` with only an
index, `/_all/{type}/{endpoint}` with only a type, and `/{endpoint}` with
neither, where the substituted values are the comma-joined lists passed
through template expansion. -/
theorem c6_buildURL_four_shapes (s : SearchOptions) (endpoint : String) :
    (specIndices s ≠ [] → specTypes s ≠ [] →
      buildURL s endpoint = Except.ok
        ("/" ++ escape (String.intercalate "," (specIndices s)) ++ "/"
          ++ escape (String.intercalate "," (specTypes s)) ++ "/"
          ++ endpoint)) ∧
    (specIndices s ≠ [] → specTypes s = [] →
      buildURL s endpoint = Except.ok
        ("/" ++ escape (String.intercalate "," (specIndices s)) ++ "/"
          ++ endpoint)) ∧
    (specIndices s = [] → specTypes s ≠ [] →
      buildURL s endpoint = Except.ok
        ("/_all/" ++ escape (String.intercalate "," (specTypes s)) ++ "/"
          ++ endpoint)) ∧
    (specIndices s = [] → specTypes s = [] →
      buildURL s endpoint = Except.ok ("/" ++ endpoint)) := by
  refine ⟨fun h1 h2 => ?_, fun h1 h2 => ?_, fun h1 h2 => ?_, fun h1 h2 => ?_⟩
  · have hi : 0 < (specIndices s).length := List.length_pos.mpr h1
    have ht : 0 < (specTypes s).length := List.length_pos.mpr h2
    simp [buildURL, hi, ht]
  · have hi : 0 < (specIndices s).length := List.length_pos.mpr h1
    simp [buildURL, hi, h2]
  · have ht : 0 < (specTypes s).length := List.length_pos.mpr h2
    simp [buildURL, h1, ht]
  · simp [buildURL, h1, h2]

/-- Witness for C6, mirroring `TestBuildURL`: an index-only specification
yields `/journald-2016.05.08/_validate/query`, a type-only specification
yields `/_all/journald/_validate/query`, and an empty specification yields
`/_validate/query`. -/
theorem c6_witness :
    buildURL { Index := "journald-2016.05.08" } "_validate/query" =
      Except.ok "/journald-2016.05.08/_validate/query" ∧
    buildURL { Typ := "journald" } "_validate/query" =
      Except.ok "/_all/journald/_validate/query" ∧
    buildURL {} "_validate/query" = Except.ok "/_validate/query" := by
  refine ⟨?_, ?_, ?_⟩
  · have h := (c6_buildURL_four_shapes { Index := "journald-2016.05.08" }
      "_validate/query").2.1 (by decide) (by decide)
    rw [h]
    rfl
  · have h := (c6_buildURL_four_shapes { Typ := "journald" }
      "_validate/query").2.2.1 (by decide) (by decide)
    rw [h]
    rfl
  · have h := (c6_buildURL_four_shapes {} "_validate/query").2.2.2
      (by decide) (by decide)
    rw [h]
    rfl

/-! ## Claim C8 -/

/-- C8: for a `SourceResult` built from raw JSON bytes, `JSON` is a no-op
passthrough of the stored bytes — so converting via `Map` and re-marshaling
via `JSON` yields exactly the original input bytes (byte-for-byte, hence in
particular equivalent modulo key order) — and `Map` lazily decodes the
stored bytes: whenever it succeeds, its mapping is precisely the JSON
object parsed from those bytes. -/
theorem c8_sourceResult_passthrough_roundtrip (b : String)
    (m : List (String × JVal))
    (h : SourceResult.Map ⟨b⟩ = Except.ok m) :
    SourceResult.JSON ⟨b⟩ = Except.ok b ∧
      jsonParse b = some (JVal.obj m) := by
  refine ⟨rfl, ?_⟩
  unfold SourceResult.Map at h
  cases hp : jsonParse b with
  | none => rw [hp] at h; simp at h
  | some v =>
    rw [hp] at h
    cases v <;> simp_all

/-- Witness for C8 at the raw bytes of the object with a single key `a`
bound to 1. -/
theorem c8_witness :
    SourceResult.JSON ⟨"\x7b\"a\":1\x7d"⟩ = Except.ok "\x7b\"a\":1\x7d" ∧
      jsonParse "\x7b\"a\":1\x7d" = some (JVal.obj [("a", JVal.num 1)]) :=
  c8_sourceResult_passthrough_roundtrip "\x7b\"a\":1\x7d"
    [("a", JVal.num 1)] rfl

/-! ## Claim C2 (corrected) -/

/-- C2 counterexample: on a page of three hits whose middle hit fails to
convert (nil source document), the single-page producer publishes exactly
one error, continues past the failure, but also publishes a (nil) Result
on the results channel for the failing hit — three channel entries, not
the two the claim's "no Result is published for the hit that failed to
decode" would give.  The hit loop sends the error and then falls through
to `stream.Results <- result` with the nil result regardless. -/
theorem c2_counterexample :
    (executeSearcherRun {} (fun _ => false)
        (DoResp.okHits [{ source := some "one" }, {},
          { source := some "three" }])).published =
      [some (LResult.sourceResult "one"), none,
        some (LResult.sourceResult "three")] ∧
    (executeSearcherRun {} (fun _ => false)
        (DoResp.okHits [{ source := some "one" }, {},
          { source := some "three" }])).published.length ≠ 2 ∧
    (executeSearcherRun {} (fun _ => false)
        (DoResp.okHits [{ source := some "one" }, {},
          { source := some "three" }])).errs = ["nil document returned"] :=
  ⟨rfl, by decide, rfl⟩

/-! The amended C2 theorem and its witness follow the C1 section at the end
of the file, since they build on `extractOks` and the hit-loop lemmas. -/

/-! ## Claim C9 -/

/-- Helper: folding the append-one-element step over a list appends the
whole list to the accumulator. -/
theorem foldl_push_eq {α : Type} (l : List α) (acc : List α) :
    l.foldl (fun s r => s ++ [r]) acc = acc ++ l := by
  induction l generalizing acc with
  | nil => simp
  | cons x xs ih => simp [ih]

/-- Helper: on a trace that ends by normal closure of the results channel,
`Each` applies `resultFn` to every genuine result in order and then exactly
once more to the EOS sentinel, returning that final call's error. -/
theorem eachRun_normalTrace {σ : Type}
    (resultFn : Option LResult → σ → σ × Option Err)
    (errFn : Option Err → σ → σ × Option Err)
    (rs : List (Option LResult)) (s0 : σ)
    (hok : ∀ r s, r ∈ rs → (resultFn r s).2 = none) :
    eachRun resultFn errFn (normalTrace rs) s0 =
      some ((resultFn EOS (rs.foldl (fun s r => (resultFn r s).1) s0)).1,
            (resultFn EOS (rs.foldl (fun s r => (resultFn r s).1) s0)).2,
            false) := by
  induction rs generalizing s0 with
  | nil => simp [normalTrace, eachRun, EOS]
  | cons r rest ih =>
    have hstep : (resultFn r s0).2 = none :=
      hok r s0 (List.mem_cons_self _ _)
    simp only [normalTrace, List.map_cons, List.cons_append, eachRun,
      Bool.true_eq_false, and_false, if_false, hstep, List.foldl_cons]
    exact ih (resultFn r s0).1
      (fun r' s hr' => hok r' s (List.mem_cons_of_mem _ hr'))

/-- C9: when a stream ends by normal closure of the results channel, `Each`
invokes `resultFn` exactly once more with the nil end-of-stream sentinel
after all genuine results and propagates that call's return value; applied
to `All`'s closures, the accumulator `All` returns is the genuine results
with a final nil Result appended. -/
theorem c9_each_eos_sentinel_and_all {σ : Type}
    (resultFn : Option LResult → σ → σ × Option Err)
    (errFn : Option Err → σ → σ × Option Err)
    (rs : List (Option LResult)) (s0 : σ)
    (hok : ∀ r s, r ∈ rs → (resultFn r s).2 = none) :
    eachRun resultFn errFn (normalTrace rs) s0 =
      some ((resultFn EOS (rs.foldl (fun s r => (resultFn r s).1) s0)).1,
            (resultFn EOS (rs.foldl (fun s r => (resultFn r s).1) s0)).2,
            false) ∧
    allRun (normalTrace rs) = some (rs ++ [none], none, false) := by
  refine ⟨eachRun_normalTrace resultFn errFn rs s0 hok, ?_⟩
  have h := eachRun_normalTrace allResultFn allErrFn rs []
    (fun r s _ => rfl)
  rw [allRun, h]
  simp [allResultFn, EOS, foldl_push_eq]

/-- Witness for C9 at a one-result stream consumed by `All`: the returned
slice is the genuine result followed by the appended nil sentinel. -/
theorem c9_witness :
    allRun (normalTrace [some (LResult.sourceResult "x")]) =
      some ([some (LResult.sourceResult "x"), none], none, false) :=
  (c9_each_eos_sentinel_and_all allResultFn allErrFn
    [some (LResult.sourceResult "x")] [] (fun _ _ _ => rfl)).2

/-! ## Claim C4 -/

/-- Helper: the scroll-loop epilogue only records a discard. -/
@[simp]
theorem finishScroll_published (st : ScrollState) :
    (finishScroll st).published = st.published := by
  unfold finishScroll; split <;> rfl

/-- Helper: the epilogue does not change the quit observation. -/
@[simp]
theorem finishScroll_quitObserved (st : ScrollState) :
    (finishScroll st).quitObserved = st.quitObserved := by
  unfold finishScroll; split <;> rfl

/-- Helper: the epilogue does not change the step counter. -/
@[simp]
theorem finishScroll_step (st : ScrollState) :
    (finishScroll st).step = st.step := by
  unfold finishScroll; split <;> rfl

/-- Helper: the epilogue does not change the error channel. -/
@[simp]
theorem finishScroll_errs (st : ScrollState) :
    (finishScroll st).errs = st.errs := by
  unfold finishScroll; split <;> rfl

/-- Helper: the epilogue does not change the page counter. -/
@[simp]
theorem finishScroll_pagesFetched (st : ScrollState) :
    (finishScroll st).pagesFetched = st.pagesFetched := by
  unfold finishScroll; split <;> rfl

/-- Helper: the epilogue does not change the result count. -/
@[simp]
theorem finishScroll_count (st : ScrollState) :
    (finishScroll st).count = st.count := by
  unfold finishScroll; split <;> rfl

/-- Helper: entering a page does not publish results. -/
@[simp]
theorem pageEntry_published (p : Page) (st : ScrollState) :
    (pageEntry p st).published = st.published := by
  simp only [pageEntry]; split <;> rfl

/-- Helper: entering a page does not change the quit observation. -/
@[simp]
theorem pageEntry_quitObserved (p : Page) (st : ScrollState) :
    (pageEntry p st).quitObserved = st.quitObserved := by
  simp only [pageEntry]; split <;> rfl

/-- Helper: entering a page does not change the step counter. -/
@[simp]
theorem pageEntry_step (p : Page) (st : ScrollState) :
    (pageEntry p st).step = st.step := by
  simp only [pageEntry]; split <;> rfl

/-- Helper: entering a page does not touch the error channel. -/
@[simp]
theorem pageEntry_errs (p : Page) (st : ScrollState) :
    (pageEntry p st).errs = st.errs := by
  simp only [pageEntry]; split <;> rfl

/-- Helper: entering a page does not change the result count. -/
@[simp]
theorem pageEntry_count (p : Page) (st : ScrollState) :
    (pageEntry p st).count = st.count := by
  simp only [pageEntry]; split <;> rfl

/-- Helper: entering a page counts one fetched page. -/
@[simp]
theorem pageEntry_pagesFetched (p : Page) (st : ScrollState) :
    (pageEntry p st).pagesFetched = st.pagesFetched + 1 := by
  simp only [pageEntry]; split <;> rfl

/-- Helper invariant for the hit loop: starting from a state with no quit
observation whose published count equals its step counter, the loop either
ends (via fall-through or the count check) still with no quit observation
and published count equal to the step counter, or ends on the quit branch
having recorded the step `n` at which quit was observed with exactly `n`
results published. -/
theorem runHits_quit_inv (spec : SearchOptions) (quit : Nat → Bool)
    (hits : List SearchHit) (st : ScrollState)
    (hq : st.quitObserved = none)
    (hlen : st.published.length = st.step) :
    ((runHits spec quit hits st).1.quitObserved = none ∧
      (runHits spec quit hits st).1.published.length =
        (runHits spec quit hits st).1.step) ∨
    ((runHits spec quit hits st).2 = HitExit.quitStop ∧
      ∃ n, (runHits spec quit hits st).1.quitObserved = some n ∧
        (runHits spec quit hits st).1.published.length = n) := by
  induction hits generalizing st with
  | nil => exact Or.inl ⟨hq, hlen⟩
  | cons hit rest ih =>
    rcases hex : extractResult hit spec with ⟨r, oe⟩
    cases oe with
    | none =>
      simp only [runHits, hex]
      by_cases hquit : quit st.step
      · simp only [hquit, if_true]
        right
        refine ⟨?_, st.step, ?_, ?_⟩ <;> simp [hlen]
      · simp only [hquit, if_false]
        by_cases hc : st.count + 1 = spec.Size
        · simp only [hc, if_true]
          left
          refine ⟨?_, ?_⟩ <;> simp [hq, hlen]
        · simp only [hc, if_false]
          exact ih _ hq (by simp [hlen])
    | some e =>
      simp only [runHits, hex]
      by_cases hquit : quit st.step
      · simp only [hquit, if_true]
        right
        refine ⟨?_, st.step, ?_, ?_⟩ <;> simp [hlen]
      · simp only [hquit, if_false]
        by_cases hc : st.count + 1 = spec.Size
        · simp only [hc, if_true]
          left
          refine ⟨?_, ?_⟩ <;> simp [hq, hlen]
        · simp only [hc, if_false]
          exact ih _ hq (by simp [hlen])

/-- Helper invariant for the whole scroll loop: from a clean state the run
ends either with no quit observation and published count equal to the step
counter, or with the quit observation at step `n` and exactly `n` results
published. -/
theorem runScroll_quit_inv (spec : SearchOptions) (quit : Nat → Bool)
    (resps : List PageResp) (st : ScrollState)
    (hq : st.quitObserved = none)
    (hlen : st.published.length = st.step) :
    ((runScroll spec quit resps st).quitObserved = none ∧
      (runScroll spec quit resps st).published.length =
        (runScroll spec quit resps st).step) ∨
    (∃ n, (runScroll spec quit resps st).quitObserved = some n ∧
      (runScroll spec quit resps st).published.length = n) := by
  induction resps generalizing st with
  | nil =>
    left
    refine ⟨?_, ?_⟩ <;> simp [runScroll, hq, hlen]
  | cons resp rest ih =>
    simp only [runScroll]
    split
    · left
      refine ⟨?_, ?_⟩ <;> simp [hq, hlen]
    · cases resp with
      | eos =>
        left
        refine ⟨?_, ?_⟩ <;> simp [hq, hlen]
      | errResp e =>
        left
        refine ⟨?_, ?_⟩ <;> simp [hq, hlen]
      | okPage p =>
        have hinv := runHits_quit_inv spec quit p.hits (pageEntry p st)
          (by simp [hq]) (by simp [hlen])
        rcases hrh : runHits spec quit p.hits (pageEntry p st)
          with ⟨st3, exitK⟩
        rw [hrh] at hinv
        simp only [hrh]
        cases exitK with
        | more =>
          rcases hinv with ⟨h1, h2⟩ | ⟨hbad, _⟩
          · exact ih st3 h1 h2
          · exact absurd hbad (by simp)
        | quitStop =>
          rcases hinv with ⟨h1, h2⟩ | ⟨_, n, hsome, hn⟩
          · left
            refine ⟨?_, ?_⟩ <;> simp_all
          · right
            exact ⟨n, by simp_all, by simp_all⟩
        | countStop =>
          rcases hinv with ⟨h1, h2⟩ | ⟨hbad, _⟩
          · left
            refine ⟨?_, ?_⟩ <;> simp_all
          · exact absurd hbad (by simp)

/-- C4: for every run of the cursor-driven producer, once the quit branch
of the select is observed at a hit boundary — at global hit step `n` — no
further result is published on the results channel: the results channel
holds exactly the `n` results published before the observation, so the
count of results published after cancellation is observed is zero (within
the claim's bound of at most one in-flight hit), and the result already
converted at step `n` is dropped. -/
theorem c4_no_publish_after_quit_observed (spec : SearchOptions)
    (quit : Nat → Bool) (resps : List PageResp) (n : Nat)
    (h : (executeScrollRun spec quit resps).quitObserved = some n) :
    (executeScrollRun spec quit resps).published.length = n := by
  have hinv := runScroll_quit_inv spec quit resps {} rfl rfl
  unfold executeScrollRun at h ⊢
  rcases hinv with ⟨hnone, _⟩ | ⟨m, hsome, hlen⟩
  · rw [h] at hnone; cases hnone
  · rw [h] at hsome
    injection hsome with hmn
    rw [hlen, hmn]

/-- Witness for C4: a run on one three-hit page where the quit branch fires
at hit step 1 publishes exactly one result. -/
theorem c4_witness :
    (executeScrollRun { Size := 5 } (fun k => k == 1)
      [PageResp.okPage ⟨"s1", [⟨[], some "a"⟩, ⟨[], some "b"⟩,
        ⟨[], some "c"⟩]⟩]).published.length = 1 :=
  c4_no_publish_after_quit_observed { Size := 5 } (fun k => k == 1)
    [PageResp.okPage ⟨"s1", [⟨[], some "a"⟩, ⟨[], some "b"⟩,
      ⟨[], some "c"⟩]⟩] 1 rfl

/-! ## Claim C1 -/

/-- The results the hit loop publishes for a list of hits, in order. -/
def extractOks (spec : SearchOptions) (hits : List SearchHit) :
    List (Option LResult) :=
  hits.map (fun h => (extractResult h spec).1)

/-- Helper: a hit whose extraction reports no error yields a non-nil
Result. -/
theorem extract_ok_isSome (spec : SearchOptions) (h : SearchHit)
    (hok : (extractResult h spec).2 = none) :
    (extractResult h spec).1.isSome := by
  unfold extractResult at hok ⊢
  by_cases hc : spec.Fields.length ≠ 0 ∧ h.fields.length ≠ 0
  · rw [if_pos hc]
    rfl
  · rw [if_neg hc] at hok ⊢
    cases hs : h.source with
    | none => rw [hs] at hok; simp at hok
    | some src => rfl

/-- Helper: when every hit converts cleanly, no quit fires, and even the
whole page leaves the count short of the requested size, the hit loop
publishes every hit of the page and falls through to the next page. -/
theorem runHits_pub_all_state (spec : SearchOptions) (quit : Nat → Bool)
    (hits : List SearchHit) (st : ScrollState)
    (hq : ∀ n, quit n = false)
    (hok : ∀ h ∈ hits, (extractResult h spec).2 = none)
    (hlt : st.count + hits.length < spec.Size) :
    runHits spec quit hits st =
      ({ st with
          published := st.published ++ extractOks spec hits
          count := st.count + hits.length
          step := st.step + hits.length }, HitExit.more) := by
  induction hits generalizing st with
  | nil => simp [runHits, extractOks]
  | cons hit rest ih =>
    have hok1 : (extractResult hit spec).2 = none := hok hit (by simp)
    rcases hex : extractResult hit spec with ⟨r, oe⟩
    rw [hex] at hok1
    simp only at hok1
    subst hok1
    have hne : ¬(st.count + 1 = spec.Size) := by
      simp only [List.length_cons] at hlt
      push_cast at hlt
      omega
    have hlt2 : st.count + 1 + (rest.length : Int) < spec.Size := by
      simp only [List.length_cons] at hlt
      push_cast at hlt
      omega
    simp only [runHits, hex, hq, if_false, Bool.false_eq_true, hne]
    rw [ih _ (fun h hm => hok h (List.mem_cons_of_mem _ hm)) (by simpa)]
    simp only [extractOks, List.map_cons, hex, List.length_cons,
      Prod.mk.injEq, and_true]
    congr 1
    · simp
    · push_cast
      ring
    · omega

/-- Helper: component form of `runHits_pub_all_state`, naming the state the
hit loop falls through with. -/
theorem runHits_pub_all (spec : SearchOptions) (quit : Nat → Bool)
    (hits : List SearchHit) (st : ScrollState)
    (hq : ∀ n, quit n = false)
    (hok : ∀ h ∈ hits, (extractResult h spec).2 = none)
    (hlt : st.count + hits.length < spec.Size) :
    ∃ st', runHits spec quit hits st = (st', HitExit.more) ∧
      st'.published = st.published ++ extractOks spec hits ∧
      st'.count = st.count + hits.length ∧
      st'.step = st.step + hits.length ∧
      st'.errs = st.errs ∧
      st'.pagesFetched = st.pagesFetched :=
  ⟨_, runHits_pub_all_state spec quit hits st hq hok hlt,
    rfl, rfl, rfl, rfl, rfl⟩

/-- Helper: when every hit converts cleanly, no quit fires, and the page
reaches the requested size, the loop publishes exactly the missing
`spec.Size - st.count` results and breaks out via the count check. -/
theorem runHits_truncate (spec : SearchOptions) (quit : Nat → Bool)
    (hits : List SearchHit) (st : ScrollState)
    (hq : ∀ n, quit n = false)
    (hok : ∀ h ∈ hits, (extractResult h spec).2 = none)
    (hpos : st.count < spec.Size)
    (hub : spec.Size ≤ st.count + hits.length) :
    ∃ st', runHits spec quit hits st = (st', HitExit.countStop) ∧
      st'.count = spec.Size ∧
      st'.published.length =
        st.published.length + (spec.Size - st.count).toNat ∧
      st'.errs = st.errs ∧
      st'.pagesFetched = st.pagesFetched ∧
      ((∀ x ∈ st.published, x.isSome) → ∀ x ∈ st'.published, x.isSome) := by
  induction hits generalizing st with
  | nil =>
    exfalso
    simp only [List.length_nil] at hub
    push_cast at hub
    omega
  | cons hit rest ih =>
    have hok1 : (extractResult hit spec).2 = none := hok hit (by simp)
    have hsome : (extractResult hit spec).1.isSome :=
      extract_ok_isSome spec hit hok1
    rcases hex : extractResult hit spec with ⟨r, oe⟩
    rw [hex] at hok1 hsome
    simp only at hok1 hsome
    subst hok1
    by_cases hc : st.count + 1 = spec.Size
    · refine ⟨{ st with
          published := st.published ++ [r]
          count := st.count + 1
          step := st.step + 1 }, ?_, ?_, ?_, ?_, ?_, ?_⟩
      · simp only [runHits, hex, hq, if_false, Bool.false_eq_true, hc,
          if_true]
      · simpa using hc
      · simp only [List.length_append, List.length_cons, List.length_nil]
        omega
      · rfl
      · rfl
      · intro hall x hx
        rcases List.mem_append.mp hx with hl | hr
        · exact hall x hl
        · simp only [List.mem_singleton] at hr
          subst hr
          exact hsome
    · have hlt : st.count + 1 < spec.Size := by omega
      have hub2 : spec.Size ≤ st.count + 1 + (rest.length : Int) := by
        simp only [List.length_cons] at hub
        push_cast at hub
        omega
      obtain ⟨st', heq, hcnt, hlen, herrs, hpf, hsm⟩ :=
        ih { st with
              published := st.published ++ [r]
              count := st.count + 1
              step := st.step + 1 }
          (fun h hm => hok h (List.mem_cons_of_mem _ hm)) hlt (by simpa)
      refine ⟨st', ?_, hcnt, ?_, herrs, hpf, ?_⟩
      · simp only [runHits, hex, hq, if_false, Bool.false_eq_true, hc]
        exact heq
      · simp only [List.length_append, List.length_cons,
          List.length_nil] at hlen
        omega
      · intro hall
        refine hsm ?_
        intro x hx
        rcases List.mem_append.mp hx with hl | hr
        · exact hall x hl
        · simp only [List.mem_singleton] at hr
          subst hr
          exact hsome

/-- A server response that is a full page: `scroll.Size(scrollChunk)` makes
the server return exactly `scrollChunk` hits per page while documents
remain, and with sufficient matching documents upstream every fetched page
is full and every hit carries a well-formed document. -/
def fullPage (spec : SearchOptions) (r : PageResp) : Prop :=
  ∃ p, r = PageResp.okPage p ∧ p.hits.length = scrollChunk ∧
    ∀ h ∈ p.hits, (extractResult h spec).2 = none

/-- Number of pages the scroll loop fetches to publish `d` more results
(the ceiling of `d / scrollChunk`). -/
def pagesNeeded (d : Nat) : Nat :=
  (d + scrollChunk - 1) / scrollChunk

/-- Helper: counting lemma for the whole scroll loop.  From a state still
short of the requested size, given full well-formed pages and enough of
them, and no quit: the loop publishes exactly the missing
`spec.Size - st.count` results (all non-nil when the prior published ones
are), publishes no error, and fetches exactly the pages needed. -/
theorem runScroll_delivers (spec : SearchOptions) (quit : Nat → Bool)
    (resps : List PageResp) (st : ScrollState)
    (hq : ∀ n, quit n = false)
    (hfull : ∀ r ∈ resps, fullPage spec r)
    (hlb : st.count < spec.Size)
    (hsuff : spec.Size - st.count ≤ (resps.length : Int) * (scrollChunk : Int)) :
    (runScroll spec quit resps st).published.length
        = st.published.length + (spec.Size - st.count).toNat ∧
    (runScroll spec quit resps st).errs = st.errs ∧
    ((∀ x ∈ st.published, x.isSome) →
      ∀ x ∈ (runScroll spec quit resps st).published, x.isSome) ∧
    (runScroll spec quit resps st).pagesFetched
        = st.pagesFetched + pagesNeeded (spec.Size - st.count).toNat := by
  have hchunk : scrollChunk = 100 := rfl
  induction resps generalizing st with
  | nil =>
    exfalso
    simp only [List.length_nil, Int.natCast_zero, zero_mul] at hsuff
    omega
  | cons resp rest ih =>
    obtain ⟨p, hresp, hplen, hpok⟩ := hfull resp (List.mem_cons_self _ _)
    subst hresp
    have htop : ¬(st.nextId ≠ "" ∧ st.count ≥ spec.Size) := by
      rintro ⟨-, hge⟩
      omega
    simp only [runScroll, htop, if_false]
    have hchunkI : ((scrollChunk : Nat) : Int) = 100 := rfl
    by_cases hcase : st.count + (scrollChunk : Int) < spec.Size
    · have hfit : (pageEntry p st).count + (p.hits.length : Int) < spec.Size := by
        rw [pageEntry_count, hplen]
        exact hcase
      obtain ⟨st3, heq3, hpub3, hcnt3, hstep3, herrs3, hpf3⟩ :=
        runHits_pub_all spec quit p.hits (pageEntry p st) hq hpok hfit
      rw [heq3]
      have hcnt3' : st3.count = st.count + 100 := by
        rw [hcnt3, pageEntry_count, hplen, hchunkI]
      rw [hchunkI] at hcase
      have hlb3 : st3.count < spec.Size := by omega
      obtain ⟨hlen, herrs, hsome, hpf⟩ :=
        ih st3 (fun r hr => hfull r (List.mem_cons_of_mem _ hr)) hlb3
          (by
            simp only [List.length_cons] at hsuff
            push_cast at hsuff
            rw [hchunkI] at hsuff ⊢
            omega)
      refine ⟨?_, ?_, ?_, ?_⟩
      · rw [hlen, hpub3]
        simp only [List.length_append, pageEntry_published, extractOks,
          List.length_map, hplen, hchunk]
        omega
      · rw [herrs, herrs3, pageEntry_errs]
      · intro hall
        refine fun x hx => hsome ?_ x hx
        intro y hy
        rw [hpub3, pageEntry_published] at hy
        rcases List.mem_append.mp hy with hl | hr
        · exact hall y hl
        · simp only [extractOks, List.mem_map] at hr
          obtain ⟨h, hh, hval⟩ := hr
          subst hval
          exact extract_ok_isSome spec h (hpok h hh)
      · rw [hpf, hpf3, pageEntry_pagesFetched, hcnt3']
        have hstep : pagesNeeded (spec.Size - st.count).toNat =
            pagesNeeded (spec.Size - (st.count + 100)).toNat + 1 := by
          unfold pagesNeeded
          rw [hchunk]
          omega
        rw [hstep]
        omega
    · rw [hchunkI] at hcase
      have hub : spec.Size ≤ (pageEntry p st).count + (p.hits.length : Int) := by
        rw [pageEntry_count, hplen, hchunkI]
        omega
      obtain ⟨st', heq, hcnt, hlen, herrs, hpf, hsm⟩ :=
        runHits_truncate spec quit p.hits (pageEntry p st) hq hpok
          (by simpa using hlb) hub
      rw [heq]
      refine ⟨?_, ?_, ?_, ?_⟩
      · rw [finishScroll_published, hlen]
        simp
      · rw [finishScroll_errs, herrs]
        simp
      · intro hall
        rw [finishScroll_published]
        exact hsm (by simpa using hall)
      · rw [finishScroll_pagesFetched, hpf, pageEntry_pagesFetched]
        have hone : pagesNeeded (spec.Size - st.count).toNat = 1 := by
          unfold pagesNeeded
          rw [hchunk]
          omega
        rw [hone]

/-- C1: for a cursor-driven stream with requested size greater than the
single-request limit and sufficient matching documents upstream (every
page the server returns is a full, well-formed `scrollChunk`-sized page and
enough pages exist), the producer delivers exactly `spec.Size` results —
no nil results, no errors — because the count is incremented only together
with a publish and checked only after it; and when the size is not a
multiple of the chunk size, the final page is still fully fetched (the
loop fetches `Size / scrollChunk + 1` pages) and truncated by the count
check rather than under-fetched. -/
theorem c1_scroll_delivers_exact_count (spec : SearchOptions)
    (quit : Nat → Bool) (resps : List PageResp)
    (hsize : spec.Size > MaxSearchSize)
    (hq : ∀ n, quit n = false)
    (hfull : ∀ r ∈ resps, fullPage spec r)
    (hsuff : spec.Size ≤ (resps.length : Int) * (scrollChunk : Int)) :
    ((executeScrollRun spec quit resps).published.length : Int) = spec.Size ∧
    (∀ x ∈ (executeScrollRun spec quit resps).published, x.isSome) ∧
    (executeScrollRun spec quit resps).errs = [] ∧
    (spec.Size % (scrollChunk : Int) ≠ 0 →
      ((executeScrollRun spec quit resps).pagesFetched : Int)
        = spec.Size / (scrollChunk : Int) + 1) := by
  have hpos : (0 : Int) < spec.Size := by
    have : MaxSearchSize = 10000 := rfl
    omega
  obtain ⟨hlen, herrs, hsome, hpf⟩ :=
    runScroll_delivers spec quit resps {} hq hfull (by simpa) (by simpa)
  unfold executeScrollRun
  refine ⟨?_, ?_, ?_, ?_⟩
  · rw [hlen]
    simp only [List.length_nil]
    omega
  · exact hsome (by simp)
  · simpa using herrs
  · intro hmod
    rw [hpf]
    unfold pagesNeeded
    have hchunk : scrollChunk = 100 := rfl
    rw [hchunk] at hmod ⊢
    simp only [List.length_nil, Int.sub_zero] at *
    omega

/-- Witness for C1: size 10001 (not a multiple of the chunk size 100)
against 101 full pages of 100 well-formed hits. -/
theorem c1_witness :
    (((executeScrollRun { Size := 10001, Index := "logstash-*" }
        (fun _ => false)
        (List.replicate 101 (PageResp.okPage
          ⟨"sid", List.replicate 100 ⟨[], some "doc"⟩⟩))).published.length : Int)
      = 10001) ∧
    ((executeScrollRun { Size := 10001, Index := "logstash-*" }
        (fun _ => false)
        (List.replicate 101 (PageResp.okPage
          ⟨"sid", List.replicate 100 ⟨[], some "doc"⟩⟩))).pagesFetched : Int)
      = 101 := by
  have h := c1_scroll_delivers_exact_count
    { Size := 10001, Index := "logstash-*" } (fun _ => false)
    (List.replicate 101 (PageResp.okPage
      ⟨"sid", List.replicate 100 ⟨[], some "doc"⟩⟩))
    (by decide) (fun _ => rfl)
    (by
      intro r hr
      rw [List.eq_of_mem_replicate hr]
      refine ⟨_, rfl, by simp [scrollChunk], ?_⟩
      intro h hh
      rw [List.eq_of_mem_replicate hh]
      rfl)
    (by decide)
  refine ⟨h.1, ?_⟩
  have := h.2.2.2 (by decide)
  rw [this]
  decide

/-! ## Claim C2 (corrected), amended theorem -/

/-- The errors the hit loop publishes for a list of hits, in order (one per
hit whose extraction fails). -/
def extractErrs (spec : SearchOptions) (hits : List SearchHit) : List Err :=
  hits.filterMap (fun h => (extractResult h spec).2)

/-- Helper: a list of cleanly converting hits publishes no error. -/
theorem extractErrs_nil (spec : SearchOptions) (hits : List SearchHit)
    (h : ∀ h' ∈ hits, (extractResult h' spec).2 = none) :
    extractErrs spec hits = [] := by
  induction hits with
  | nil => rfl
  | cons a t ih =>
    unfold extractErrs
    rw [List.filterMap_cons, h a (List.mem_cons_self _ _)]
    exact ih (fun h' hm => h h' (List.mem_cons_of_mem _ hm))

/-- Helper: a list of cleanly converting hits publishes only non-nil
Results. -/
theorem extractOks_isSome (spec : SearchOptions) (hits : List SearchHit)
    (h : ∀ h' ∈ hits, (extractResult h' spec).2 = none) :
    ∀ x ∈ extractOks spec hits, x.isSome := by
  intro x hx
  simp only [extractOks, List.mem_map] at hx
  obtain ⟨h', hm, hval⟩ := hx
  subst hval
  exact extract_ok_isSome spec h' (h h' hm)

/-- Helper: with no quit pending, the single-page hit loop runs the whole
page, publishing one (possibly nil) result per hit and one error per
failing hit, in order. -/
theorem runSearcherHits_no_quit (spec : SearchOptions) (quit : Nat → Bool)
    (hits : List SearchHit) (st : SearcherState)
    (hq : ∀ n, quit n = false) :
    runSearcherHits spec quit hits st =
      { st with
        published := st.published ++ extractOks spec hits
        errs := st.errs ++ extractErrs spec hits
        step := st.step + hits.length } := by
  induction hits generalizing st with
  | nil => simp [runSearcherHits, extractOks, extractErrs]
  | cons hit rest ih =>
    rcases hex : extractResult hit spec with ⟨r, oe⟩
    cases oe with
    | none =>
      simp only [runSearcherHits, hex, hq, Bool.false_eq_true, if_false]
      rw [ih]
      simp only [extractOks, extractErrs, List.map_cons,
        List.filterMap_cons, hex, List.length_cons]
      congr 1 <;> (first | rfl | (simp; done) | omega)
    | some e =>
      simp only [runSearcherHits, hex, hq, Bool.false_eq_true, if_false]
      rw [ih]
      simp only [extractOks, extractErrs, List.map_cons,
        List.filterMap_cons, hex, List.length_cons]
      congr 1 <;> (first | rfl | (simp; done) | omega)

/-- Helper: with no quit pending and the page too small to reach the
requested size, the scroll hit loop runs the whole page, publishing one
(possibly nil) result per hit and one error per failing hit, and falls
through to the next page. -/
theorem runHits_no_quit_all (spec : SearchOptions) (quit : Nat → Bool)
    (hits : List SearchHit) (st : ScrollState)
    (hq : ∀ n, quit n = false)
    (hlt : st.count + hits.length < spec.Size) :
    runHits spec quit hits st =
      ({ st with
          published := st.published ++ extractOks spec hits
          errs := st.errs ++ extractErrs spec hits
          count := st.count + hits.length
          step := st.step + hits.length }, HitExit.more) := by
  induction hits generalizing st with
  | nil => simp [runHits, extractOks, extractErrs]
  | cons hit rest ih =>
    have hne : ¬(st.count + 1 = spec.Size) := by
      simp only [List.length_cons] at hlt
      push_cast at hlt
      omega
    have hlt2 : st.count + 1 + (rest.length : Int) < spec.Size := by
      simp only [List.length_cons] at hlt
      push_cast at hlt
      omega
    rcases hex : extractResult hit spec with ⟨r, oe⟩
    cases oe with
    | none =>
      simp only [runHits, hex, hq, Bool.false_eq_true, if_false, hne]
      rw [ih _ (by simpa)]
      simp only [extractOks, extractErrs, List.map_cons,
        List.filterMap_cons, hex, List.length_cons, Prod.mk.injEq, and_true]
      congr 1 <;> (first | rfl | (simp; done) | omega)
    | some e =>
      simp only [runHits, hex, hq, Bool.false_eq_true, if_false, hne]
      rw [ih _ (by simpa)]
      simp only [extractOks, extractErrs, List.map_cons,
        List.filterMap_cons, hex, List.length_cons, Prod.mk.injEq, and_true]
      congr 1 <;> (first | rfl | (simp; done) | omega)

/-- Helper: a single-page scroll run that stays below the requested size
publishes one (possibly nil) result per hit and one error per failing hit,
in order, over the whole page. -/
theorem executeScrollRun_single_page (spec : SearchOptions)
    (quit : Nat → Bool) (p : Page)
    (hq : ∀ n, quit n = false)
    (hlt : (p.hits.length : Int) < spec.Size) :
    (executeScrollRun spec quit [PageResp.okPage p]).published =
      extractOks spec p.hits ∧
    (executeScrollRun spec quit [PageResp.okPage p]).errs =
      extractErrs spec p.hits := by
  have hlt' : (pageEntry p {}).count + (p.hits.length : Int) < spec.Size := by
    rw [pageEntry_count]
    simpa using hlt
  have hrun := runHits_no_quit_all spec quit p.hits (pageEntry p {}) hq hlt'
  have hcond : ¬((({} : ScrollState)).nextId ≠ "" ∧
      (({} : ScrollState)).count ≥ spec.Size) := by
    rintro ⟨hc, -⟩
    exact hc rfl
  unfold executeScrollRun
  simp only [runScroll, hcond, if_false, hrun, finishScroll_published,
    finishScroll_errs]
  exact ⟨by simp, by simp⟩

/-- C2 amended: for every page of hits in which exactly one hit fails to
convert to a Result — an arbitrary prefix `pre` and suffix `post` of
cleanly converting hits around the failing hit — the stream publishes a
Result for each of the other hits (all non-nil), exactly one error for the
failing hit, and does not terminate early (one results-channel entry per
hit, in order); however the producer does not skip the publish step for
the failing hit: a nil Result is published on the results channel at its
position.  This holds for the single-page producer on any such page, and
for the cursor-driven producer on any such page that does not already
complete the requested size. -/
theorem c2_partial_decode_error_continues
    (spec : SearchOptions) (pre post : List SearchHit) (hbad : SearchHit)
    (e : Err) (sid : String)
    (hpre : ∀ h ∈ pre, (extractResult h spec).2 = none)
    (hpost : ∀ h ∈ post, (extractResult h spec).2 = none)
    (hbadx : extractResult hbad spec = (none, some e)) :
    (executeSearcherRun spec (fun _ => false)
        (DoResp.okHits (pre ++ hbad :: post))).published =
      extractOks spec pre ++ none :: extractOks spec post ∧
    (executeSearcherRun spec (fun _ => false)
        (DoResp.okHits (pre ++ hbad :: post))).errs = [e] ∧
    (executeSearcherRun spec (fun _ => false)
        (DoResp.okHits (pre ++ hbad :: post))).published.length =
      (pre ++ hbad :: post).length ∧
    (∀ x ∈ extractOks spec pre, x.isSome) ∧
    (∀ x ∈ extractOks spec post, x.isSome) ∧
    (((pre.length : Int) + post.length + 1 < spec.Size) →
      (executeScrollRun spec (fun _ => false)
          [PageResp.okPage ⟨sid, pre ++ hbad :: post⟩]).published =
        extractOks spec pre ++ none :: extractOks spec post ∧
      (executeScrollRun spec (fun _ => false)
          [PageResp.okPage ⟨sid, pre ++ hbad :: post⟩]).errs = [e]) := by
  have hoks : extractOks spec (pre ++ hbad :: post) =
      extractOks spec pre ++ none :: extractOks spec post := by
    simp only [extractOks, List.map_append, List.map_cons, hbadx]
  have herrs : extractErrs spec (pre ++ hbad :: post) = [e] := by
    have hp : extractErrs spec pre = [] := extractErrs_nil spec pre hpre
    have hq2 : extractErrs spec post = [] := extractErrs_nil spec post hpost
    simp only [extractErrs] at hp hq2 ⊢
    simp only [List.filterMap_append, List.filterMap_cons, hbadx, hp, hq2]
    rfl
  have hsr : executeSearcherRun spec (fun _ => false)
      (DoResp.okHits (pre ++ hbad :: post)) =
      { published := extractOks spec (pre ++ hbad :: post)
        errs := extractErrs spec (pre ++ hbad :: post)
        step := (pre ++ hbad :: post).length
        quitObserved := none } := by
    show runSearcherHits spec (fun _ => false) (pre ++ hbad :: post)
      { published := [], errs := [], step := 0, quitObserved := none } = _
    rw [runSearcherHits_no_quit spec _ _ _ (fun _ => rfl)]
    congr 1 <;> simp
  refine ⟨?_, ?_, ?_, extractOks_isSome spec pre hpre,
    extractOks_isSome spec post hpost, ?_⟩
  · rw [hsr, hoks]
  · rw [hsr, herrs]
  · rw [hsr, hoks]
    simp [extractOks]
  · intro hsize
    have hlen : (((⟨sid, pre ++ hbad :: post⟩ : Page)).hits.length : Int)
        < spec.Size := by
      simp only [List.length_append, List.length_cons]
      push_cast
      omega
    obtain ⟨hp1, hp2⟩ := executeScrollRun_single_page spec (fun _ => false)
      ⟨sid, pre ++ hbad :: post⟩ (fun _ => rfl) hlen
    exact ⟨by rw [hp1]; exact hoks, by rw [hp2]; exact herrs⟩

/-- Witness for C2's amended theorem at a concrete three-hit page with the
failing hit in the middle, run through both producers. -/
theorem c2_witness :
    (executeSearcherRun { Size := 10 } (fun _ => false)
        (DoResp.okHits [⟨[], some "one"⟩, ⟨[], none⟩,
          ⟨[], some "three"⟩])).published =
      [some (LResult.sourceResult "one"), none,
        some (LResult.sourceResult "three")] ∧
    (executeSearcherRun { Size := 10 } (fun _ => false)
        (DoResp.okHits [⟨[], some "one"⟩, ⟨[], none⟩,
          ⟨[], some "three"⟩])).errs = ["nil document returned"] ∧
    (executeScrollRun { Size := 10 } (fun _ => false)
        [PageResp.okPage ⟨"s", [⟨[], some "one"⟩, ⟨[], none⟩,
          ⟨[], some "three"⟩]⟩]).published =
      [some (LResult.sourceResult "one"), none,
        some (LResult.sourceResult "three")] ∧
    (executeScrollRun { Size := 10 } (fun _ => false)
        [PageResp.okPage ⟨"s", [⟨[], some "one"⟩, ⟨[], none⟩,
          ⟨[], some "three"⟩]⟩]).errs = ["nil document returned"] := by
  have h := c2_partial_decode_error_continues { Size := 10 }
    [⟨[], some "one"⟩] [⟨[], some "three"⟩] ⟨[], none⟩
    "nil document returned" "s" (by decide) (by decide) rfl
  have hs := h.2.2.2.2.2 (by decide)
  exact ⟨h.1, h.2.1, hs.1, hs.2⟩

end LGrep
